import Mathlib

/-!
Verification of the ARL (Agent Runtime Layer) Python SDK and diagnostic
scripts against their design specification.

The development shallowly embeds the relevant Python functions as Lean
definitions and proves (or refutes) the specified properties:

* `scripts/locality_check.py` — Rendezvous (HRW) hashing: `hrw_score`,
  `compute_top_k`, and the preferred-node count computed in `main`.
* `sdk/python/arl/arl/types.py` — `InlineToolSpec` validation.
* `sdk/python/arl/arl/gateway_client.py` — `GatewayClient._handle_error`.
* `sdk/python/arl/arl/sidecar_client.py` — `SidecarClient.execute` as the
  fold of `SidecarClient.execute_stream`.
* `sdk/python/arl/arl/warmpool.py` — `WarmPoolManager.wait_for_ready`.
* `sdk/python/arl/arl/session.py` — `SandboxSession.delete_sandbox` and
  the `SandboxSession.sidecar_client` property.

Machine integers are modelled as `Nat` with explicit reduction modulo
`2 ^ 32` (resp. `2 ^ 64`) where the Python code relies on fixed-width
behaviour.
-/

namespace ARL

/-! ## SHA-256 (embedding of `hashlib.sha256`)

`scripts/locality_check.py` feeds `image || 0x00 || node` to `hashlib.sha256`
and unpacks the first 8 digest bytes big-endian.  The hash itself is the
standard FIPS 180-4 SHA-256; it is embedded here over `List Nat` (bytes) with
32-bit words as `Nat` reduced mod `2 ^ 32`. -/

/-- 32-bit truncation. -/
def w32 (n : Nat) : Nat := n % 4294967296

/-- Right rotation of a 32-bit word by `n` bits (`0 < n < 32`). -/
def rotr (n x : Nat) : Nat := w32 ((x >>> n) ||| (x <<< (32 - n)))

/-- Bitwise complement within 32 bits. -/
def compl32 (x : Nat) : Nat := x ^^^ 4294967295

/-- SHA-256 `Ch e f g = (e ∧ f) ⊕ (¬e ∧ g)`. -/
def ch (e f g : Nat) : Nat := (e &&& f) ^^^ (compl32 e &&& g)

/-- SHA-256 `Maj a b c`. -/
def maj (a b c : Nat) : Nat := (a &&& b) ^^^ (a &&& c) ^^^ (b &&& c)

/-- SHA-256 big sigma 0. -/
def bigS0 (x : Nat) : Nat := rotr 2 x ^^^ rotr 13 x ^^^ rotr 22 x

/-- SHA-256 big sigma 1. -/
def bigS1 (x : Nat) : Nat := rotr 6 x ^^^ rotr 11 x ^^^ rotr 25 x

/-- SHA-256 small sigma 0. -/
def smallS0 (x : Nat) : Nat := rotr 7 x ^^^ rotr 18 x ^^^ (x >>> 3)

/-- SHA-256 small sigma 1. -/
def smallS1 (x : Nat) : Nat := rotr 17 x ^^^ rotr 19 x ^^^ (x >>> 10)

/-- The 64 SHA-256 round constants. -/
def sha256K : List Nat :=
  [1116352408, 1899447441, 3049323471, 3921009573, 961987163,
   1508970993, 2453635748, 2870763221, 3624381080, 310598401,
   607225278, 1426881987, 1925078388, 2162078206, 2614888103,
   3248222580, 3835390401, 4022224774, 264347078, 604807628,
   770255983, 1249150122, 1555081692, 1996064986, 2554220882,
   2821834349, 2952996808, 3210313671, 3336571891, 3584528711,
   113926993, 338241895, 666307205, 773529912, 1294757372,
   1396182291, 1695183700, 1986661051, 2177026350, 2456956037,
   2730485921, 2820302411, 3259730800, 3345764771, 3516065817,
   3600352804, 4094571909, 275423344, 430227734, 506948616,
   659060556, 883997877, 958139571, 1322822218, 1537002063,
   1747873779, 1955562222, 2024104815, 2227730452, 2361852424,
   2428436474, 2756734187, 3204031479, 3329325298]

/-- Initial SHA-256 hash state, as an 8-tuple of 32-bit words. -/
def sha256H0 : Nat × Nat × Nat × Nat × Nat × Nat × Nat × Nat :=
  (1779033703, 3144134277, 1013904242, 2773480762,
   1359893119, 2600822924, 528734635, 1541459225)

/-- Pack big-endian groups of four bytes into 32-bit words. -/
def bytesToWords : List Nat → List Nat
  | b0 :: b1 :: b2 :: b3 :: rest =>
      (((b0 * 256 + b1) * 256 + b2) * 256 + b3) :: bytesToWords rest
  | _ => []

/-- One step of the message-schedule extension.  The accumulator holds the
words produced so far, most recent first. -/
def schedStep (r : List Nat) : List Nat :=
  w32 (r.getD 15 0 + smallS0 (r.getD 14 0) + r.getD 6 0 + smallS1 (r.getD 1 0)) :: r

/-- Extend 16 message words to the 64-word schedule. -/
def msgSchedule (ws : List Nat) : List Nat :=
  (List.foldl (fun r _ => schedStep r) ws.reverse (List.range 48)).reverse

/-- One SHA-256 compression round. -/
def sha256Round (st : Nat × Nat × Nat × Nat × Nat × Nat × Nat × Nat) (kw : Nat × Nat) :
    Nat × Nat × Nat × Nat × Nat × Nat × Nat × Nat :=
  match st, kw with
  | (a, b, c, d, e, f, g, h), (k, w) =>
    let t1 := w32 (h + bigS1 e + ch e f g + k + w)
    let t2 := w32 (bigS0 a + maj a b c)
    (w32 (t1 + t2), a, b, c, w32 (d + t1), e, f, g)

/-- Compress one 64-byte block into the running hash state. -/
def sha256Block (st : Nat × Nat × Nat × Nat × Nat × Nat × Nat × Nat) (block : List Nat) :
    Nat × Nat × Nat × Nat × Nat × Nat × Nat × Nat :=
  match st with
  | (h0, h1, h2, h3, h4, h5, h6, h7) =>
    let ws := msgSchedule (bytesToWords block)
    match List.foldl sha256Round st (sha256K.zip ws) with
    | (a, b, c, d, e, f, g, h) =>
      (w32 (h0 + a), w32 (h1 + b), w32 (h2 + c), w32 (h3 + d),
       w32 (h4 + e), w32 (h5 + f), w32 (h6 + g), w32 (h7 + h))

/-- Split a byte string into 64-byte blocks (fuel-based structural recursion;
the caller supplies fuel at least the length of the list). -/
def chunks64 : Nat → List Nat → List (List Nat)
  | 0, _ => []
  | _, [] => []
  | Nat.succ fuel, l => l.take 64 :: chunks64 fuel (l.drop 64)

/-- Big-endian bytes of a natural number, `n` bytes wide. -/
def beBytes : Nat → Nat → List Nat
  | 0, _ => []
  | Nat.succ k, v => (v >>> (8 * k)) % 256 :: beBytes k v

/-- SHA-256 padding: `0x80`, zeros to 56 mod 64, then the 64-bit big-endian
bit length. -/
def sha256Pad (msg : List Nat) : List Nat :=
  let len := msg.length
  let zeros := (119 - len % 64) % 64
  msg ++ 0x80 :: List.replicate zeros 0 ++ beBytes 8 (8 * len)

/-- Big-endian interpretation of a word as four bytes. -/
def wordBytes (v : Nat) : List Nat := beBytes 4 v

/-- SHA-256 digest (32 bytes) of a byte string. -/
def sha256 (msg : List Nat) : List Nat :=
  let padded := sha256Pad msg
  match List.foldl sha256Block sha256H0 (chunks64 padded.length padded) with
  | (h0, h1, h2, h3, h4, h5, h6, h7) =>
    wordBytes h0 ++ wordBytes h1 ++ wordBytes h2 ++ wordBytes h3 ++
    wordBytes h4 ++ wordBytes h5 ++ wordBytes h6 ++ wordBytes h7

/-- UTF-8 encoding of a single code point. -/
def utf8EncodeCp (c : Nat) : List Nat :=
  if c < 0x80 then [c]
  else if c < 0x800 then
    [0xC0 ||| (c >>> 6), 0x80 ||| (c &&& 0x3F)]
  else if c < 0x10000 then
    [0xE0 ||| (c >>> 12), 0x80 ||| ((c >>> 6) &&& 0x3F), 0x80 ||| (c &&& 0x3F)]
  else
    [0xF0 ||| (c >>> 18), 0x80 ||| ((c >>> 12) &&& 0x3F),
     0x80 ||| ((c >>> 6) &&& 0x3F), 0x80 ||| (c &&& 0x3F)]

/-- UTF-8 bytes of a string (embedding of Python's `str.encode()`). -/
def utf8Bytes (s : String) : List Nat :=
  (s.data.map (fun c => utf8EncodeCp c.toNat)).foldr (· ++ ·) []

/-- Big-endian unsigned integer formed by a byte string (embedding of
`struct.unpack` with format `>Q` when applied to 8 bytes). -/
def beNat (bs : List Nat) : Nat := bs.foldl (fun acc b => acc * 256 + b) 0

/-- HRW score for an (image, node) pair: the first 8 bytes of
`SHA-256(image || 0x00 || node)` unpacked big-endian.  Embeds `hrw_score` of
`scripts/locality_check.py`. -/
def hrw_score (image node : String) : Nat :=
  beNat ((sha256 (utf8Bytes image ++ 0 :: utf8Bytes node)).take 8)

/-! ## `compute_top_k` (from `scripts/locality_check.py`)

The Python code sorts the nodes with key `(-score, name)` (a stable sort) and
takes the first `min k (length nodes)` entries.  The sort key is an injective
function of the node name once the image is fixed, so the sorted list is the
unique permutation of the input sorted by the total order below; any sorting
algorithm produces it, and it is embedded here with `List.insertionSort`. -/

/-- The ordering used by `compute_top_k`: node `a` precedes (or equals) node
`b` when `a` has the strictly higher HRW score, or the scores tie and `a` is
alphabetically no later than `b`.  This is the Python sort key
`(-score, name)` in ascending order. -/
def hrwRel (image : String) (a b : String) : Prop :=
  hrw_score image b < hrw_score image a ∨
    (hrw_score image a = hrw_score image b ∧ a ≤ b)

instance (image : String) : DecidableRel (hrwRel image) := fun a b => by
  unfold hrwRel
  infer_instance

instance (image : String) : IsTotal String (hrwRel image) where
  total a b := by
    rcases Nat.lt_trichotomy (hrw_score image a) (hrw_score image b) with h | h | h
    · exact Or.inr (Or.inl h)
    · rcases le_total a b with hab | hab
      · exact Or.inl (Or.inr ⟨h, hab⟩)
      · exact Or.inr (Or.inr ⟨h.symm, hab⟩)
    · exact Or.inl (Or.inl h)

instance (image : String) : IsTrans String (hrwRel image) where
  trans a b c hab hbc := by
    rcases hab with hab | ⟨hab1, hab2⟩ <;> rcases hbc with hbc | ⟨hbc1, hbc2⟩
    · exact Or.inl (Nat.lt_trans hbc hab)
    · exact Or.inl (by omega)
    · exact Or.inl (by omega)
    · exact Or.inr ⟨hab1.trans hbc1, le_trans hab2 hbc2⟩

instance (image : String) : IsAntisymm String (hrwRel image) where
  antisymm a b hab hba := by
    rcases hab with hab | ⟨hab1, hab2⟩ <;> rcases hba with hba | ⟨hba1, hba2⟩
    · exact absurd (Nat.lt_trans hab hba) (Nat.lt_irrefl _)
    · exact absurd hab (by omega)
    · exact absurd hba (by omega)
    · exact le_antisymm hab2 hba2

/-- Top-`k` preferred nodes for an image via HRW.  Embeds `compute_top_k` of
`scripts/locality_check.py`: empty node list or non-positive `k` yields `[]`;
otherwise the nodes sorted descending by score with alphabetical tie-break,
truncated to `min k (length nodes)`. -/
def compute_top_k (image : String) (nodes : List String) (k : Nat) : List String :=
  if nodes.isEmpty || k == 0 then []
  else (List.insertionSort (hrwRel image) nodes).take (min k nodes.length)

/-! ## Preferred-node count (from `main` in `scripts/locality_check.py`)

The script computes `k = max(1, int(replicas * spreadFactor + 0.999999))`.
The arithmetic is embedded with exact rationals, reading the literal
`0.999999` as the decimal it denotes.  Python's `int()` truncates toward
zero; for a non-negative argument that is the floor, and for a negative
argument the truncation differs from the floor only when the result is
negative, in which case `Int.toNat` and the outer `max 1` send both to `1`,
so the floor form below reproduces `max(1, int(_))` exactly. -/

/-- Number of preferred nodes the locality checker feeds to `compute_top_k`:
embeds `max(1, int(replicas * spreadFactor + 0.999999))`. -/
def kPreferred (replicas : Nat) (spreadFactor : ℚ) : Nat :=
  max 1 (Int.toNat ⌊(replicas : ℚ) * spreadFactor + 999999 / 1000000⌋)

/-- The preferred-node count as the specification states it:
`max(1, ceil(replicas · spreadFactor))`. -/
def kPreferredSpec (replicas : Nat) (spreadFactor : ℚ) : Nat :=
  max 1 (Int.toNat ⌈(replicas : ℚ) * spreadFactor⌉)

/-! ## String helpers shared by the SDK models

Case-folding and substring search embed Python's `str.lower()` and the
`in` operator on the ASCII keyword strings the SDK uses. -/

/-- Lower-case a string character-wise (embedding of `str.lower()` on the
ASCII strings compared by the SDK). -/
def lowerStr (s : String) : String := ⟨s.data.map Char.toLower⟩

/-- Whether the first list is an initial segment of the second. -/
def prefOf : List Char → List Char → Bool
  | a :: as, b :: bs => a == b && prefOf as bs
  | [], _ => true
  | _, _ => false

/-- Whether `needle` occurs contiguously inside `hay` (embedding of Python's
`needle in hay` on strings). -/
def containsSub (needle : List Char) : List Char → Bool
  | [] => prefOf needle []
  | b :: bs => prefOf needle (b :: bs) || containsSub needle bs

/-- String containment: `strContains hay needle` embeds `needle in hay`. -/
def strContains (hay needle : String) : Bool := containsSub needle.data hay.data

/-! ## `WarmPoolManager.wait_for_ready` (from `sdk/python/arl/arl/warmpool.py`)

The polling loop is embedded over the finite list of polls that happen
before the deadline: each poll either fails with a retried network error or
observes a `PoolInfo`.  The loop state is the `consecutive_failures`
counter; the outcome is returning a ready `PoolInfo`, raising
`PoolNotReadyError`, or reaching the deadline (`TimeoutError`). -/

/-- A pool condition as the SDK sees it (`PoolCondition` in `types.py`);
`status` is one of the strings `"True"`, `"False"`, `"Unknown"`. -/
structure MPoolCondition where
  type : String
  status : String
  reason : String
  message : String
deriving DecidableEq

/-- Pool status as the SDK sees it (the fields of `PoolInfo` read by
`wait_for_ready`). -/
structure MPoolInfo where
  readyReplicas : Nat
  conditions : List MPoolCondition
deriving DecidableEq

/-- Whether a `PodsFailing` condition is transient: the lower-cased message
(falling back to the reason when the message is empty, embedding
`(cond.message or cond.reason or "").lower()`) contains one of the keywords
`"qps exceeded"`, `"rate limit"`, `"toomanyrequests"`, `"429"`. -/
def isTransientCond (c : MPoolCondition) : Bool :=
  let msg := lowerStr (if c.message == "" then (if c.reason == "" then "" else c.reason)
                       else c.message)
  strContains msg "qps exceeded" || strContains msg "rate limit" ||
    strContains msg "toomanyrequests" || strContains msg "429"

/-- Whether a condition is a `PodsFailing` condition with status `"True"`
(the test of the inner loop of `wait_for_ready`). -/
def isFailingCond (c : MPoolCondition) : Bool :=
  c.type == "PodsFailing" && c.status == "True"

/-- One poll: `none` models a retried network error
(`httpx.ConnectError` and friends), `some info` a successful
`get_warmpool`. -/
abbrev MPoll : Type := Option MPoolInfo

/-- Hypothesis of the amended transiency claim, as an executable predicate:
every condition observed by any poll that is a `PodsFailing` condition with
status `"True"` has a transient message (in the code's sense,
`isTransientCond`). -/
def allTransient (polls : List MPoll) : Bool :=
  polls.all fun p =>
    match p with
    | none => true
    | some info => info.conditions.all fun c => !isFailingCond c || isTransientCond c

/-- The transiency condition as the specification claim words it: the
message, or the reason, contains one of the keywords — either field
suffices.  This differs from `isTransientCond` (the code), which consults
the reason only when the message is empty. -/
def claimTransientCond (c : MPoolCondition) : Bool :=
  (strContains (lowerStr c.message) "qps exceeded" ||
    strContains (lowerStr c.message) "rate limit" ||
    strContains (lowerStr c.message) "toomanyrequests" ||
    strContains (lowerStr c.message) "429") ||
  (strContains (lowerStr c.reason) "qps exceeded" ||
    strContains (lowerStr c.reason) "rate limit" ||
    strContains (lowerStr c.reason) "toomanyrequests" ||
    strContains (lowerStr c.reason) "429")

/-- Hypothesis of the original transiency claim, as an executable predicate:
every observed `PodsFailing=True` condition has a message or a reason
containing a transient keyword (`claimTransientCond`). -/
def allClaimTransient (polls : List MPoll) : Bool :=
  polls.all fun p =>
    match p with
    | none => true
    | some info => info.conditions.all fun c => !isFailingCond c || claimTransientCond c

/-- Outcome of a `wait_for_ready` run. -/
inductive WaitOutcome where
  | ready (info : MPoolInfo)
  | poolNotReady (cond : MPoolCondition)
  | timeout
deriving DecidableEq

/-- The polling loop of `wait_for_ready`, embedded over the finite list of
polls that fit before the deadline, threading the `consecutive_failures`
counter.  A poll with `ready_replicas > 0` returns; otherwise the first
`PodsFailing=True` condition is inspected: transient resets the counter,
non-transient increments it and raises `PoolNotReadyError` on the second
consecutive failure.  An exhausted list is the deadline
(`TimeoutError`). -/
def waitForReady : List MPoll → Nat → WaitOutcome
  | [], _ => .timeout
  | none :: rest, fails => waitForReady rest fails
  | some info :: rest, fails =>
    if 0 < info.readyReplicas then .ready info
    else
      match info.conditions.find? (fun c => isFailingCond c) with
      | some c =>
        if isTransientCond c then waitForReady rest 0
        else if 2 ≤ fails + 1 then .poolNotReady c
        else waitForReady rest (fails + 1)
      | none => waitForReady rest 0

/-! ## `InlineToolSpec` validation (from `sdk/python/arl/arl/types.py`)

The pydantic model constrains `name` by the pattern
`^[a-zA-Z0-9][a-zA-Z0-9_.-]*$` with `max_length=63`, `entrypoint` by the
same pattern with `max_length=255`, `runtime` to a three-value literal, and
runs a model validator requiring — only when `files` is non-empty — that
`entrypoint` be a key of `files`. -/

/-- The `runtime` literal of `InlineToolSpec`. -/
inductive MRuntime where
  | bash
  | python
  | binary

/-- ASCII alphanumeric test, `[a-zA-Z0-9]`. -/
def isAlnumAscii (c : Char) : Bool :=
  ('a' ≤ c && c ≤ 'z') || ('A' ≤ c && c ≤ 'Z') || ('0' ≤ c && c ≤ '9')

/-- Character class `[a-zA-Z0-9_.-]` of the tool-name pattern. -/
def isNameTailChar (c : Char) : Bool :=
  isAlnumAscii c || c == '_' || c == '.' || c == '-'

/-- Full match of the anchored pattern `^[a-zA-Z0-9][a-zA-Z0-9_.-]*$`:
a first alphanumeric character followed by characters of the class. -/
def nameRegexOk (s : String) : Bool :=
  match s.data with
  | [] => false
  | c :: cs => isAlnumAscii c && cs.all isNameTailChar

/-- Validation of the `name` field: pattern plus `max_length=63`. -/
def nameFieldOk (s : String) : Bool := nameRegexOk s && s.length ≤ 63

/-- Validation of the `entrypoint` field: pattern plus `max_length=255`. -/
def entrypointFieldOk (s : String) : Bool := nameRegexOk s && s.length ≤ 255

/-- The tool-name acceptance condition exactly as the specification words
it: first character alphanumeric, every subsequent character in
`[A-Za-z0-9_.-]`, and total length at most 63. -/
def nameSpecOk (s : String) : Prop :=
  ∃ c cs, s.data = c :: cs ∧ isAlnumAscii c = true ∧
    (∀ x ∈ cs, isNameTailChar x = true) ∧ s.length ≤ 63

/-- Whether an `InlineToolSpec` with the given fields passes validation
(`true` means the model is accepted).  Embeds the pydantic field constraints
and the `validate_entrypoint_in_files` model validator: the entrypoint check
fires only when `files` is non-empty (`if self.files and self.entrypoint not
in self.files`). -/
def inlineToolSpecOk (name entrypoint : String) (runtime : MRuntime)
    (files : List (String × String)) : Bool :=
  nameFieldOk name && entrypointFieldOk entrypoint &&
    (files.isEmpty || (files.map Prod.fst).contains entrypoint)

/-! ## `GatewayClient._handle_error` (from `sdk/python/arl/arl/gateway_client.py`)

A response carries a status code, its raw text, and an optional parsed JSON
body (`none` when `response.json()` raises `ValueError`).  The pydantic
`ErrorResponse` model accepts a JSON object with a string `error` field and
an optional string `detail` field (other members are ignored); validation
failures are caught together with JSON decoding errors, falling back to the
raw text. -/

/-- A JSON value, as produced by `response.json()`. -/
inductive MJson where
  | null
  | bool (b : Bool)
  | num (n : Int)
  | str (s : String)
  | arr (xs : List MJson)
  | obj (fields : List (String × MJson))

/-- An HTTP response as `_handle_error` consumes it. -/
structure MResponse where
  statusCode : Nat
  text : String
  jsonBody : Option MJson

/-- The exception `GatewayError(status_code, error, detail)`. -/
structure MGatewayError where
  statusCode : Nat
  error : String
  detail : String
deriving DecidableEq

/-- Validation of `ErrorResponse` against a JSON value: an object whose
`error` member is a string, with `detail` an optional string defaulting to
`""`.  Returns the `(error, detail)` pair, or `none` when pydantic would
raise. -/
def parseErrorResponse : MJson → Option (String × String)
  | .obj fields =>
    match fields.lookup "error" with
    | some (.str e) =>
      match fields.lookup "detail" with
      | none => some (e, "")
      | some (.str d) => some (e, d)
      | some _ => none
    | _ => none
  | _ => none

/-- Embeds `GatewayClient._handle_error`: `none` means the method returns
normally, `some e` that it raises `GatewayError e`. -/
def handle_error (r : MResponse) : Option MGatewayError :=
  if 400 ≤ r.statusCode then
    match r.jsonBody with
    | some j =>
      match parseErrorResponse j with
      | some (e, d) => some ⟨r.statusCode, e, d⟩
      | none => some ⟨r.statusCode, r.text, ""⟩
    | none => some ⟨r.statusCode, r.text, ""⟩
  else none

/-! ## `SidecarClient.execute` (from `sdk/python/arl/arl/sidecar_client.py`)

`execute` folds the chunk stream produced by `execute_stream` into one
aggregated `ExecLog`. -/

/-- One `ExecLog` chunk of the sidecar `Execute` RPC stream. -/
structure MExecLog where
  stdout : String
  stderr : String
  exit_code : Int
  done : Bool
deriving DecidableEq

/-- The loop body of `SidecarClient.execute`: push non-empty stdout/stderr
fields onto the accumulated part lists, and record the exit code of any
chunk with `done=True`. -/
def execStep (acc : List String × List String × Int) (log : MExecLog) :
    List String × List String × Int :=
  match acc with
  | (outs, errs, ec) =>
    (if log.stdout ≠ "" then outs ++ [log.stdout] else outs,
     if log.stderr ≠ "" then errs ++ [log.stderr] else errs,
     if log.done then log.exit_code else ec)

/-- Embeds `SidecarClient.execute` applied to the finite chunk stream that
`execute_stream` yields: aggregate the parts and return one final
`ExecLog`. -/
def executeAgg (chunks : List MExecLog) : MExecLog :=
  match chunks.foldl execStep ([], [], 0) with
  | (outs, errs, ec) =>
    { stdout := String.join outs
      stderr := String.join errs
      exit_code := ec
      done := true }

/-! ## `SandboxSession.delete_sandbox` (from `sdk/python/arl/arl/session.py`)

The session state is reduced to the three fields the method touches:
`sandbox_name`, `_pod_ip` and `_sidecar_client` (the latter modelled by the
address it was built with).  The Kubernetes delete call is modelled by the
result the API server would return. -/

/-- The `SandboxSession` fields read and written by `delete_sandbox` and the
`sidecar_client` property. -/
structure MSessionState where
  sandboxName : Option String
  podIp : Option String
  grpcPort : Nat
  sidecar : Option String
deriving DecidableEq

/-- Result of the `delete_namespaced_custom_object` call: success, or an
`ApiException` with a status code. -/
inductive MApiResult where
  | ok
  | apiError (status : Nat)

/-- Embeds `SandboxSession.delete_sandbox`.  Returns `Except s (st, issued)`:
`Except.error s` models re-raising an `ApiException` with status `s`;
otherwise `st` is the resulting session state and `issued` whether the
delete API call was made.  The sidecar client is closed first in every
path; with no sandbox name the method returns early; a 404 from the API is
swallowed; any other `ApiException` is re-raised. -/
def delete_sandbox (st : MSessionState) (api : MApiResult) :
    Except Nat (MSessionState × Bool) :=
  let st1 := { st with sidecar := none }
  match st1.sandboxName with
  | none => .ok (st1, false)
  | some _ =>
    match api with
    | .ok => .ok ({ st1 with sandboxName := none, podIp := none }, true)
    | .apiError s =>
      if s = 404 then .ok ({ st1 with sandboxName := none, podIp := none }, true)
      else .error s

/-! ## `SandboxSession.sidecar_client` (from `sdk/python/arl/arl/session.py`)

The property raises `RuntimeError` when `_pod_ip` is unset; otherwise it
lazily constructs a `SidecarClient` bound to `"<pod_ip>:<grpc_port>"` and
caches it.  The client is modelled by its address string; the returned
`Bool` records whether a new client was constructed on this access. -/

/-- Embeds the `SandboxSession.sidecar_client` property: either the
`RuntimeError` message, or the client together with the updated state and a
flag telling whether a client was constructed during this access. -/
def sidecar_client (st : MSessionState) :
    Except String String × MSessionState × Bool :=
  match st.podIp with
  | none => (.error "Sandbox not ready - pod IP not available", st, false)
  | some ip =>
    match st.sidecar with
    | some c => (.ok c, st, false)
    | none =>
      let c := ip ++ ":" ++ toString st.grpcPort
      (.ok c, { st with sidecar := some c }, true)

/-! ### Supporting lemmas about sorted prefixes -/

/-- An element of the first `k` entries of a list stays within the first
`k + 1` entries after an ordered insertion. -/
theorem mem_take_orderedInsert {α : Type} (r : α → α → Prop) [DecidableRel r] (v : α) :
    ∀ (l : List α) (k : Nat) (x : α), x ∈ l.take k →
      x ∈ (List.orderedInsert r v l).take (k + 1)
  | [], k, x, hx => by simp at hx
  | b :: bs, 0, x, hx => by simp at hx
  | b :: bs, Nat.succ m, x, hx => by
    by_cases h : r v b
    · simp only [List.orderedInsert, if_pos h, List.take_succ_cons]
      exact List.mem_cons_of_mem _ hx
    · simp only [List.orderedInsert, if_neg h, List.take_succ_cons] at hx ⊢
      rcases List.mem_cons.mp hx with hxb | hxm
      · exact List.mem_cons.mpr (Or.inl hxb)
      · exact List.mem_cons_of_mem _ (mem_take_orderedInsert r v bs m x hxm)

/-- Membership in `take` is monotone in the prefix length. -/
theorem mem_take_mono {α : Type} {l : List α} {m n : Nat} (h : m ≤ n) {x : α}
    (hx : x ∈ l.take m) : x ∈ l.take n := by
  have heq : l.take m = (l.take n).take m := by
    rw [List.take_take, Nat.min_eq_left h]
  rw [heq] at hx
  exact List.take_subset _ _ hx

/-- Sorting a list with one element appended is an ordered insertion into the
sorted list (for an antisymmetric total preorder the sorted permutation is
unique). -/
theorem insertionSort_append_singleton {α : Type} (r : α → α → Prop) [DecidableRel r]
    [IsTotal α r] [IsTrans α r] [IsAntisymm α r] (l : List α) (v : α) :
    List.insertionSort r (l ++ [v]) = List.orderedInsert r v (List.insertionSort r l) := by
  refine List.eq_of_perm_of_sorted ?_ (List.sorted_insertionSort r _)
    ((List.sorted_insertionSort r l).orderedInsert v _)
  exact ((List.perm_insertionSort r _).trans
    ((List.perm_append_singleton v l).trans
      ((List.perm_insertionSort r l).symm.cons v))).trans
    (List.perm_orderedInsert r v _).symm

/-! ## Claim theorems -/

/-- C1: `hrw_score(I, n)` is the unsigned big-endian integer formed by the
first 8 bytes of `SHA-256(I || 0x00 || n)`; and for distinct node names and
`k ≥ 1`, `compute_top_k(I, nodes, k)` returns `min k |nodes|` node names
drawn from `nodes`, ordered by HRW score descending with alphabetical
tie-break (`hrwRel`), and every returned name ranks at least as high as
every name not returned. -/
theorem hrw_compute_top_k_correct (I : String) (nodes : List String) (k : Nat)
    (hnd : nodes.Nodup) (hk : 1 ≤ k) :
    (∀ n, hrw_score I n = beNat ((sha256 (utf8Bytes I ++ 0 :: utf8Bytes n)).take 8)) ∧
    (compute_top_k I nodes k).length = min k nodes.length ∧
    List.Sorted (hrwRel I) (compute_top_k I nodes k) ∧
    (∀ x ∈ compute_top_k I nodes k, x ∈ nodes) ∧
    (∀ x ∈ compute_top_k I nodes k, ∀ y ∈ nodes,
      y ∉ compute_top_k I nodes k → hrwRel I x y) := by
  rcases eq_or_ne nodes [] with hnil | hne
  · subst hnil
    refine ⟨fun n => rfl, ?_, ?_, ?_, ?_⟩ <;> simp [compute_top_k]
  · have hk0 : (k == 0) = false := by
      simp only [beq_eq_false_iff_ne]
      omega
    have hee : nodes.isEmpty = false := by
      simp [List.isEmpty_iff, hne]
    have hunfold : compute_top_k I nodes k =
        (List.insertionSort (hrwRel I) nodes).take (min k nodes.length) := by
      unfold compute_top_k
      rw [hk0, hee]
      rfl
    set l := List.insertionSort (hrwRel I) nodes with hl
    have hperm : l.Perm nodes := List.perm_insertionSort _ nodes
    have hlen : l.length = nodes.length := hperm.length_eq
    have hsorted : List.Sorted (hrwRel I) l := List.sorted_insertionSort _ nodes
    refine ⟨fun n => rfl, ?_, ?_, ?_, ?_⟩
    · rw [hunfold, List.length_take, hlen]
      omega
    · rw [hunfold]
      exact hsorted.sublist (List.take_sublist _ _)
    · intro x hx
      rw [hunfold] at hx
      exact hperm.subset (List.take_subset _ _ hx)
    · intro x hx y hy hyn
      rw [hunfold] at hx hyn
      have hy2 : y ∈ l := hperm.symm.subset hy
      have hsplit := List.take_append_drop (min k nodes.length) l
      have hp : List.Pairwise (hrwRel I) l := hsorted
      rw [← hsplit] at hp
      rcases List.pairwise_append.mp hp with ⟨_, _, hcross⟩
      rw [← hsplit] at hy2
      rcases List.mem_append.mp hy2 with hyt | hyd
      · exact absurd hyt hyn
      · exact hcross x hx y hyd

/-- Witness for C1 at image `"img"`, nodes `["alpha", "bravo", "charlie"]`
and `k = 2`; the concrete top-2 list evaluates to `["bravo", "charlie"]`. -/
theorem hrw_compute_top_k_correct_witness :
    (["alpha", "bravo", "charlie"] : List String).Nodup ∧ 1 ≤ 2 ∧
    (compute_top_k "img" ["alpha", "bravo", "charlie"] 2).length =
      min 2 (["alpha", "bravo", "charlie"] : List String).length ∧
    compute_top_k "img" ["alpha", "bravo", "charlie"] 2 = ["bravo", "charlie"] :=
  ⟨by decide, by decide,
   (hrw_compute_top_k_correct "img" ["alpha", "bravo", "charlie"] 2
     (by decide) (by decide)).2.1,
   by decide⟩

/-- C3: for distinct node names, a fresh node name and `k ≥ 1`, the list
returned by `compute_top_k` is invariant under permutation of the input
(hence so is the returned set), and appending one new node changes the
returned set by at most one element: at most one previous member is
displaced. -/
theorem compute_top_k_stability (I : String) (nodes : List String) (k : Nat)
    (v : String) (hnd : nodes.Nodup) (hv : v ∉ nodes) (hk : 1 ≤ k) :
    (∀ nodes2, nodes.Perm nodes2 →
      compute_top_k I nodes k = compute_top_k I nodes2 k) ∧
    ((compute_top_k I nodes k).toFinset \
      (compute_top_k I (nodes ++ [v]) k).toFinset).card ≤ 1 := by
  constructor
  · intro nodes2 hp
    unfold compute_top_k
    have hlen : nodes.length = nodes2.length := hp.length_eq
    have hsort : List.insertionSort (hrwRel I) nodes =
        List.insertionSort (hrwRel I) nodes2 := by
      refine List.eq_of_perm_of_sorted ?_ (List.sorted_insertionSort _ _)
        (List.sorted_insertionSort _ _)
      exact (List.perm_insertionSort _ _).trans
        (hp.trans (List.perm_insertionSort _ _).symm)
    have hemp : nodes.isEmpty = nodes2.isEmpty := by
      rcases nodes with _ | ⟨a, l⟩ <;> rcases nodes2 with _ | ⟨b, l2⟩ <;> simp_all
    rw [hsort, hlen, hemp]
  · rcases eq_or_ne nodes [] with hnil | hne
    · subst hnil
      simp [compute_top_k]
    · have hk0 : (k == 0) = false := by
        simp only [beq_eq_false_iff_ne]
        omega
      have hee : nodes.isEmpty = false := by simp [List.isEmpty_iff, hne]
      have hee2 : (nodes ++ [v]).isEmpty = false := by simp [List.isEmpty_iff]
      have hlpos : 1 ≤ nodes.length := by
        rcases nodes with _ | _
        · simp at hne
        · simp
      set l := List.insertionSort (hrwRel I) nodes with hldef
      set m := min k nodes.length with hm
      set m2 := min k (nodes ++ [v]).length with hm2
      have hmpos : 1 ≤ m := by
        rw [hm]
        omega
      have hm2m : m ≤ m2 := by
        rw [hm, hm2, List.length_append]
        simp only [List.length_cons, List.length_nil]
        omega
      have hm2pos : 1 ≤ m2 := le_trans hmpos hm2m
      have hold : compute_top_k I nodes k = l.take m := by
        unfold compute_top_k
        rw [hk0, hee]
        rfl
      have hnew : compute_top_k I (nodes ++ [v]) k =
          (List.orderedInsert (hrwRel I) v l).take m2 := by
        unfold compute_top_k
        rw [hk0, hee2, insertionSort_append_singleton]
        rfl
      rw [hold, hnew]
      have hsub : (l.take m).toFinset \
          ((List.orderedInsert (hrwRel I) v l).take m2).toFinset ⊆
          (l[m - 1]?.toList).toFinset := by
        intro x hx
        rcases Finset.mem_sdiff.mp hx with ⟨hxt, hxn⟩
        have hxt2 : x ∈ l.take m := List.mem_toFinset.mp hxt
        have hxn2 : x ∉ (List.orderedInsert (hrwRel I) v l).take m2 := fun hc =>
          hxn (List.mem_toFinset.mpr hc)
        have hxnot : x ∉ l.take (m - 1) := by
          intro hc
          have h1 : x ∈ l.take (m2 - 1) := mem_take_mono (by omega) hc
          have h2 : x ∈ (List.orderedInsert (hrwRel I) v l).take (m2 - 1 + 1) :=
            mem_take_orderedInsert _ v l _ x h1
          rw [Nat.sub_add_cancel hm2pos] at h2
          exact hxn2 h2
        have hx3 : x ∈ l.take (m - 1) ++ l[m - 1]?.toList := by
          rw [← List.take_succ, Nat.sub_add_cancel hmpos]
          exact hxt2
        rcases List.mem_append.mp hx3 with hc | hc
        · exact absurd hc hxnot
        · exact List.mem_toFinset.mpr hc
      refine le_trans (Finset.card_le_card hsub)
        (le_trans (List.toFinset_card_le _) ?_)
      rcases l[m - 1]? with _ | a <;> simp

/-- Witness for C3 at image `"img"`, nodes `["alpha", "bravo"]`, new node
`"charlie"` and `k = 1`. -/
theorem compute_top_k_stability_witness :
    (["alpha", "bravo"] : List String).Nodup ∧
    "charlie" ∉ (["alpha", "bravo"] : List String) ∧ (1 : Nat) ≤ 1 ∧
    ((compute_top_k "img" ["alpha", "bravo"] 1).toFinset \
      (compute_top_k "img" (["alpha", "bravo"] ++ ["charlie"]) 1).toFinset).card ≤ 1 :=
  ⟨by decide, by decide, by decide,
   (compute_top_k_stability "img" ["alpha", "bravo"] 1 "charlie"
     (by decide) (by decide) (by decide)).2⟩

/-- C2 counterexample: at `replicas = 1` and `spreadFactor = 1.0000001` the
code computes `k = 1` (because `int(1.0000001 + 0.999999) = 1`) while
`max(1, ceil(1 · 1.0000001)) = 2`, so the preferred-node count is not
`max(1, ceil(R · spreadFactor))`. -/
theorem kPreferred_ne_ceil_at_tiny_fraction :
    kPreferred 1 (10000001 / 10000000) = 1 ∧
    kPreferredSpec 1 (10000001 / 10000000) = 2 ∧
    kPreferred 1 (10000001 / 10000000) ≠ kPreferredSpec 1 (10000001 / 10000000) := by
  have hfl : (⌊(1 : ℚ) * (10000001 / 10000000) + 999999 / 1000000⌋ : ℤ) = 1 := by
    rw [Int.floor_eq_iff]
    constructor <;> norm_num
  have hce : (⌈(1 : ℚ) * (10000001 / 10000000)⌉ : ℤ) = 2 := by
    rw [Int.ceil_eq_iff]
    constructor <;> norm_num
  unfold kPreferred kPreferredSpec
  rw [show ((1 : Nat) : ℚ) = (1 : ℚ) by norm_num, hfl, hce]
  decide

/-- C2 (amended): the preferred-node count is
`max(1, ⌊R · spreadFactor + 0.999999⌋)`, and it agrees with the claimed
`max(1, ⌈R · spreadFactor⌉)` precisely when the fractional part of
`R · spreadFactor` is zero, or is at least `10⁻⁶`, or
`⌈R · spreadFactor⌉ ≤ 1` — in the last case the deficit of the floor form
is masked by the outer `max` with 1.  Outside these cases (the
counterexample above) the two counts differ. -/
theorem kPreferred_eq_ceil_iff (R : Nat) (s : ℚ) :
    kPreferred R s = kPreferredSpec R s ↔
      (Int.fract ((R : ℚ) * s) = 0 ∨ 1 / 1000000 ≤ Int.fract ((R : ℚ) * s) ∨
        ⌈(R : ℚ) * s⌉ ≤ 1) := by
  set x : ℚ := (R : ℚ) * s with hx
  have hfr : (⌊x⌋ : ℚ) + Int.fract x = x := Int.floor_add_fract x
  have hfnn : 0 ≤ Int.fract x := Int.fract_nonneg x
  have hflt : Int.fract x < 1 := Int.fract_lt_one x
  constructor
  · intro heq
    by_contra hnot
    push_neg at hnot
    obtain ⟨hne, hlt, hge2⟩ := hnot
    have hfpos : 0 < Int.fract x := lt_of_le_of_ne hfnn (Ne.symm hne)
    have hceil : ⌈x⌉ = ⌊x⌋ + 1 := by
      rw [Int.ceil_eq_iff]
      push_cast
      constructor <;> linarith
    have hfl : ⌊x + 999999 / 1000000⌋ = ⌊x⌋ := by
      rw [Int.floor_eq_iff]
      constructor <;> linarith
    unfold kPreferred kPreferredSpec at heq
    rw [← hx, hfl, hceil] at heq
    rw [hceil] at hge2
    omega
  · intro h
    rcases h with h0 | h1 | hle
    · have hxi : x = (⌊x⌋ : ℚ) := by linarith
      have key : ⌊x + 999999 / 1000000⌋ = ⌈x⌉ := by
        rw [hxi, Int.floor_int_add, Int.ceil_intCast]
        have hc : (⌊(999999 : ℚ) / 1000000⌋ : ℤ) = 0 := by
          rw [Int.floor_eq_iff]
          constructor <;> norm_num
        omega
      unfold kPreferred kPreferredSpec
      rw [← hx, key]
    · have hfpos : 0 < Int.fract x := lt_of_lt_of_le (by norm_num) h1
      have hceil : ⌈x⌉ = ⌊x⌋ + 1 := by
        rw [Int.ceil_eq_iff]
        push_cast
        constructor <;> linarith
      have hfl : ⌊x + 999999 / 1000000⌋ = ⌊x⌋ + 1 := by
        rw [Int.floor_eq_iff]
        push_cast
        constructor <;> linarith
      unfold kPreferred kPreferredSpec
      rw [← hx, hfl, hceil]
    · have hxle : x ≤ (⌈x⌉ : ℚ) := Int.le_ceil x
      have hcle : ((⌈x⌉ : ℚ)) ≤ 1 := by exact_mod_cast hle
      have hfl2 : ⌊x + 999999 / 1000000⌋ < 2 := by
        rw [Int.floor_lt]
        linarith
      unfold kPreferred kPreferredSpec
      rw [← hx]
      omega

/-- Witness for the amended C2 at `replicas = 2`, `spreadFactor = 1/2`:
the product is the integer `1` and both counts equal `1`. -/
theorem kPreferred_eq_ceil_iff_witness :
    (Int.fract (((2 : Nat) : ℚ) * (1 / 2)) = 0 ∨
      1 / 1000000 ≤ Int.fract (((2 : Nat) : ℚ) * (1 / 2)) ∨
      ⌈((2 : Nat) : ℚ) * (1 / 2)⌉ ≤ 1) ∧
    kPreferred 2 (1 / 2) = kPreferredSpec 2 (1 / 2) := by
  have hone : ((2 : Nat) : ℚ) * (1 / 2) = 1 := by norm_num
  have hfr : Int.fract (((2 : Nat) : ℚ) * (1 / 2)) = 0 := by
    rw [hone]
    exact Int.fract_one
  exact ⟨Or.inl hfr, (kPreferred_eq_ceil_iff 2 (1 / 2)).mpr (Or.inl hfr)⟩

/-- C4 counterexample: a `PodsFailing=True` condition whose reason contains
the keyword `toomanyrequests` but whose non-empty message
(`ImagePullBackOff`) does not.  Its "message or reason" contains a
transient keyword, satisfying the claim's hypothesis, yet the code lower
cases only `cond.message or cond.reason` — the message, since it is
non-empty — finds no keyword, and raises `PoolNotReadyError` on the second
consecutive such poll. -/
theorem wait_for_ready_fail_fast_despite_transient_reason :
    allClaimTransient
      [some ⟨0, [⟨"PodsFailing", "True", "toomanyrequests", "ImagePullBackOff"⟩]⟩,
       some ⟨0, [⟨"PodsFailing", "True", "toomanyrequests", "ImagePullBackOff"⟩]⟩] = true ∧
    waitForReady
      [some ⟨0, [⟨"PodsFailing", "True", "toomanyrequests", "ImagePullBackOff"⟩]⟩,
       some ⟨0, [⟨"PodsFailing", "True", "toomanyrequests", "ImagePullBackOff"⟩]⟩] 0 =
      .poolNotReady ⟨"PodsFailing", "True", "toomanyrequests", "ImagePullBackOff"⟩ := by
  decide

/-- C4 (amended): when every `PodsFailing=True` condition observed during a
polling run of `wait_for_ready` is transient in the code's sense — its
message, falling back to its reason only when the message is empty,
contains a transient keyword — the run never raises `PoolNotReadyError`:
it either returns a polled `PoolInfo` with `ready_replicas > 0` or reaches
the deadline and raises `TimeoutError`.  (A keyword only in the reason of a
condition with a non-empty message does not count, per the counterexample
above.) -/
theorem wait_for_ready_transient_no_fail_fast (polls : List MPoll)
    (h : allTransient polls = true) :
    (∃ info, waitForReady polls 0 = .ready info ∧ 0 < info.readyReplicas ∧
      some info ∈ polls) ∨
    waitForReady polls 0 = .timeout := by
  suffices main : ∀ fails,
      (∃ info, waitForReady polls fails = .ready info ∧ 0 < info.readyReplicas ∧
        some info ∈ polls) ∨ waitForReady polls fails = .timeout from main 0
  induction polls with
  | nil => intro _; exact Or.inr rfl
  | cons p rest ih =>
    have hall := h
    simp only [allTransient, List.all_cons, Bool.and_eq_true] at hall
    have ihr := ih hall.2
    intro fails
    rcases p with _ | info
    · simp only [waitForReady]
      rcases ihr fails with ⟨i, hw, hri, hmem⟩ | hw
      · exact Or.inl ⟨i, hw, hri, List.mem_cons_of_mem _ hmem⟩
      · exact Or.inr hw
    · by_cases hr : 0 < info.readyReplicas
      · refine Or.inl ⟨info, ?_, hr, List.mem_cons_self _ _⟩
        simp only [waitForReady, if_pos hr]
      · simp only [waitForReady, if_neg hr]
        cases hfind : info.conditions.find? (fun c => isFailingCond c) with
        | none =>
          dsimp only
          rcases ihr 0 with ⟨i, hw, hri, hmem⟩ | hw
          · exact Or.inl ⟨i, hw, hri, List.mem_cons_of_mem _ hmem⟩
          · exact Or.inr hw
        | some c =>
          dsimp only
          have hcmem : c ∈ info.conditions := List.mem_of_find?_eq_some hfind
          have hcf : isFailingCond c = true := List.find?_some hfind
          have htr : isTransientCond c = true := by
            have h1 := List.all_eq_true.mp hall.1 c hcmem
            rw [hcf] at h1
            simpa using h1
          simp only [if_pos htr]
          rcases ihr 0 with ⟨i, hw, hri, hmem⟩ | hw
          · exact Or.inl ⟨i, hw, hri, List.mem_cons_of_mem _ hmem⟩
          · exact Or.inr hw

/-- Witness for C4: a poll observing a throttled registry (transient
`PodsFailing=True`) followed by a poll with two ready replicas. -/
theorem wait_for_ready_transient_no_fail_fast_witness :
    allTransient
      [some ⟨0, [⟨"PodsFailing", "True", "RegistryThrottled",
        "503: toomanyrequests: rate limit exceeded"⟩]⟩,
       some ⟨2, []⟩] = true ∧
    ((∃ info, waitForReady
        [some ⟨0, [⟨"PodsFailing", "True", "RegistryThrottled",
          "503: toomanyrequests: rate limit exceeded"⟩]⟩,
         some ⟨2, []⟩] 0 = .ready info ∧ 0 < info.readyReplicas ∧
        some info ∈
          [some ⟨0, [⟨"PodsFailing", "True", "RegistryThrottled",
            "503: toomanyrequests: rate limit exceeded"⟩]⟩,
           some ⟨2, []⟩]) ∨
      waitForReady
        [some ⟨0, [⟨"PodsFailing", "True", "RegistryThrottled",
          "503: toomanyrequests: rate limit exceeded"⟩]⟩,
         some ⟨2, []⟩] 0 = .timeout) :=
  ⟨by decide, wait_for_ready_transient_no_fail_fast _ (by decide)⟩

/-- C5 counterexample: an `InlineToolSpec` whose `files` map is empty is
accepted even though its entrypoint is not a key of `files`, because the
model validator tests `if self.files and self.entrypoint not in
self.files` and an empty dict is falsy. -/
theorem inline_tool_empty_files_accepted :
    inlineToolSpecOk "greet" "run.sh" MRuntime.bash [] = true ∧
    (([] : List (String × String)).map Prod.fst).contains "run.sh" = false := by
  decide

/-- C5 (amended): when `files` is non-empty, a spec whose entrypoint is not
a key of `files` is rejected; with an empty `files` map the check is
skipped and the spec is accepted. -/
theorem inline_tool_entrypoint_must_be_in_files (name entrypoint : String)
    (rt : MRuntime) (files : List (String × String)) (hne : files ≠ [])
    (hnotin : (files.map Prod.fst).contains entrypoint = false) :
    inlineToolSpecOk name entrypoint rt files = false := by
  unfold inlineToolSpecOk
  have hemp : files.isEmpty = false := by simp [List.isEmpty_iff, hne]
  rw [hemp, hnotin]
  simp

/-- Witness for the amended C5: entrypoint `run.sh` is not among the files
`[("main.sh", …)]`, so validation fails. -/
theorem inline_tool_entrypoint_must_be_in_files_witness :
    ([("main.sh", "echo hi")] : List (String × String)) ≠ [] ∧
    (([("main.sh", "echo hi")] : List (String × String)).map
      Prod.fst).contains "run.sh" = false ∧
    inlineToolSpecOk "greet" "run.sh" MRuntime.bash [("main.sh", "echo hi")] = false :=
  ⟨by decide, by decide,
   inline_tool_entrypoint_must_be_in_files "greet" "run.sh" MRuntime.bash
     [("main.sh", "echo hi")] (by decide) (by decide)⟩

/-- C6: the `name` field of `InlineToolSpec` is accepted exactly when it
matches `[A-Za-z0-9][A-Za-z0-9_.-]{0,62}` — first character alphanumeric,
every further character in the class, total length at most 63 — and a spec
can only validate when its name passes that test. -/
theorem inline_tool_name_validation :
    (∀ s, nameFieldOk s = true ↔ nameSpecOk s) ∧
    (∀ name entrypoint rt files,
      inlineToolSpecOk name entrypoint rt files = true → nameFieldOk name = true) := by
  constructor
  · intro s
    constructor
    · intro hb
      unfold nameFieldOk nameRegexOk at hb
      rcases hd : s.data with _ | ⟨c, cs⟩ <;> rw [hd] at hb
      · simp at hb
      · simp only [Bool.and_eq_true, decide_eq_true_eq] at hb
        exact ⟨c, cs, hd, hb.1.1, List.all_eq_true.mp hb.1.2, hb.2⟩
    · rintro ⟨c, cs, hd, hc, hcs, hlen⟩
      unfold nameFieldOk nameRegexOk
      rw [hd]
      simp only [Bool.and_eq_true, decide_eq_true_eq]
      exact ⟨⟨hc, List.all_eq_true.mpr hcs⟩, hlen⟩
  · intro name entrypoint rt files hok
    unfold inlineToolSpecOk at hok
    simp only [Bool.and_eq_true] at hok
    exact hok.1.1

/-- Witness for C6 at the accepted name `"greet"` inside a fully valid
spec. -/
theorem inline_tool_name_validation_witness :
    inlineToolSpecOk "greet" "run.sh" MRuntime.bash [("run.sh", "echo")] = true ∧
    nameFieldOk "greet" = true ∧ nameSpecOk "greet" :=
  ⟨by decide,
   inline_tool_name_validation.2 "greet" "run.sh" MRuntime.bash
     [("run.sh", "echo")] (by decide),
   (inline_tool_name_validation.1 "greet").mp (by decide)⟩

/-- C7: `_handle_error` returns normally on status codes below 400; on 400
or greater it raises a `GatewayError` carrying the status code, whose
`error`/`detail` come from a body that validates as
`ErrorResponse {error, detail?}` and otherwise default to the raw response
text with empty detail. -/
theorem handle_error_spec (r : MResponse) :
    (r.statusCode < 400 → handle_error r = none) ∧
    (400 ≤ r.statusCode →
      ∃ e, handle_error r = some e ∧ e.statusCode = r.statusCode ∧
        ((∃ j er dt, r.jsonBody = some j ∧ parseErrorResponse j = some (er, dt) ∧
            e.error = er ∧ e.detail = dt) ∨
          ((r.jsonBody = none ∨
             ∃ j, r.jsonBody = some j ∧ parseErrorResponse j = none) ∧
            e.error = r.text ∧ e.detail = ""))) := by
  obtain ⟨code, text, jb⟩ := r
  constructor
  · intro h
    unfold handle_error
    rw [if_neg (by omega)]
  · intro h
    rcases jb with _ | j
    · refine ⟨⟨code, text, ""⟩, ?_, rfl, Or.inr ⟨Or.inl rfl, rfl, rfl⟩⟩
      unfold handle_error
      rw [if_pos h]
    · rcases hp : parseErrorResponse j with _ | ⟨er, dt⟩
      · refine ⟨⟨code, text, ""⟩, ?_, rfl, Or.inr ⟨Or.inr ⟨j, rfl, hp⟩, rfl, rfl⟩⟩
        unfold handle_error
        rw [if_pos h]
        dsimp only
        rw [hp]
      · refine ⟨⟨code, er, dt⟩, ?_, rfl, Or.inl ⟨j, er, dt, rfl, hp, rfl, rfl⟩⟩
        unfold handle_error
        rw [if_pos h]
        dsimp only
        rw [hp]

/-- Witness for C7 at a 404 response whose body fails `ErrorResponse`
validation (no JSON body), so the raw text is used. -/
theorem handle_error_spec_witness :
    400 ≤ (404 : Nat) ∧
    (∃ e, handle_error ⟨404, "not found", none⟩ = some e ∧
      e.statusCode = (⟨404, "not found", none⟩ : MResponse).statusCode ∧
      ((∃ j er dt, (⟨404, "not found", none⟩ : MResponse).jsonBody = some j ∧
          parseErrorResponse j = some (er, dt) ∧ e.error = er ∧ e.detail = dt) ∨
        (((⟨404, "not found", none⟩ : MResponse).jsonBody = none ∨
           ∃ j, (⟨404, "not found", none⟩ : MResponse).jsonBody = some j ∧
             parseErrorResponse j = none) ∧
          e.error = (⟨404, "not found", none⟩ : MResponse).text ∧ e.detail = ""))) :=
  ⟨by decide, (handle_error_spec ⟨404, "not found", none⟩).2 (by decide)⟩

/-- The exit-code accumulation of the `execute` loop equals the exit code
of the last chunk with `done = true`, defaulting to the initial value. -/
theorem foldl_exit_code (chunks : List MExecLog) : ∀ ec : Int,
    chunks.foldl (fun a c => if c.done then c.exit_code else a) ec =
      (((chunks.filter (·.done)).getLast?).map (·.exit_code)).getD ec := by
  induction chunks with
  | nil => intro ec; rfl
  | cons c t ih =>
    intro ec
    simp only [List.foldl_cons, List.filter_cons]
    by_cases hc : c.done = true
    · rw [if_pos hc, if_pos hc, ih c.exit_code]
      cases hft : t.filter (·.done) with
      | nil => simp
      | cons x xs =>
        simp only [List.getLast?_cons_cons]
        have hsome : ∃ v, (x :: xs).getLast? = some v :=
          Option.isSome_iff_exists.mp (by simp)
        rcases hsome with ⟨v, hv⟩
        simp [hv]
    · rw [if_neg hc, if_neg hc, ih ec]

/-- The part-list accumulation of the `execute` loop collects the non-empty
fields in stream order. -/
theorem foldl_execStep (chunks : List MExecLog) :
    ∀ (os es : List String) (ec : Int),
      chunks.foldl execStep (os, es, ec) =
        (os ++ (chunks.map (·.stdout)).filter (· ≠ ""),
         es ++ (chunks.map (·.stderr)).filter (· ≠ ""),
         chunks.foldl (fun a c => if c.done then c.exit_code else a) ec) := by
  induction chunks with
  | nil => intro os es ec; simp
  | cons c t ih =>
    intro os es ec
    simp only [List.foldl_cons, execStep, List.map_cons, List.filter_cons]
    rw [ih]
    by_cases ho : c.stdout = "" <;> by_cases he : c.stderr = "" <;>
      simp [ho, he]

/-- C8: `SidecarClient.execute` is the fold of `execute_stream`: its result
concatenates the stream's non-empty `stdout` fields in order, likewise for
`stderr`, carries the exit code of the last chunk with `done = true`
(0 when there is none), and has `done = true`. -/
theorem execute_is_fold_of_stream (chunks : List MExecLog) :
    (executeAgg chunks).stdout =
      String.join ((chunks.map (·.stdout)).filter (· ≠ "")) ∧
    (executeAgg chunks).stderr =
      String.join ((chunks.map (·.stderr)).filter (· ≠ "")) ∧
    (executeAgg chunks).exit_code =
      (((chunks.filter (·.done)).getLast?).map (·.exit_code)).getD 0 ∧
    (executeAgg chunks).done = true := by
  unfold executeAgg
  rw [foldl_execStep chunks [] [] 0, foldl_exit_code chunks 0]
  simp

/-- C9: `delete_sandbox` is idempotent.  With no sandbox name it returns
without an API call; a 404 from the delete API is swallowed; every
non-raising call leaves `sandbox_name`, `_pod_ip` and `_sidecar_client`
all `None`, so an immediately repeated call is a no-op that issues no API
call.  The hypothesis `hinv` is the session invariant that a pod IP is
only ever recorded while a sandbox name is set (true of every reachable
`SandboxSession` state: both fields are set together and cleared
together). -/
theorem delete_sandbox_idempotent (st : MSessionState) (api : MApiResult)
    (hinv : st.sandboxName = none → st.podIp = none) :
    (st.sandboxName = none →
      delete_sandbox st api = .ok ({ st with sidecar := none }, false)) ∧
    (∀ n, st.sandboxName = some n →
      delete_sandbox st (.apiError 404) =
        .ok ({ st with sandboxName := none, podIp := none, sidecar := none }, true)) ∧
    (∀ st2 issued, delete_sandbox st api = .ok (st2, issued) →
      st2.sandboxName = none ∧ st2.podIp = none ∧ st2.sidecar = none) ∧
    (∀ st2 issued api2, delete_sandbox st api = .ok (st2, issued) →
      delete_sandbox st2 api2 = .ok (st2, false)) := by
  obtain ⟨sn, ip, port, sc⟩ := st
  rcases sn with _ | n
  · have hip : ip = none := hinv rfl
    subst hip
    refine ⟨fun _ => rfl, ?_, ?_, ?_⟩
    · intro n hn
      cases hn
    · intro st2 issued hok
      have hok2 : (Except.ok ((⟨none, none, port, none⟩ : MSessionState), false) :
          Except Nat (MSessionState × Bool)) = .ok (st2, issued) := hok
      simp only [Except.ok.injEq, Prod.mk.injEq] at hok2
      obtain ⟨h1, h2⟩ := hok2
      subst h1
      exact ⟨rfl, rfl, rfl⟩
    · intro st2 issued api2 hok
      have hok2 : (Except.ok ((⟨none, none, port, none⟩ : MSessionState), false) :
          Except Nat (MSessionState × Bool)) = .ok (st2, issued) := hok
      simp only [Except.ok.injEq, Prod.mk.injEq] at hok2
      obtain ⟨h1, h2⟩ := hok2
      subst h1
      rfl
  · refine ⟨?_, ?_, ?_, ?_⟩
    · intro hn
      cases hn
    · intro n2 hn2
      rfl
    · intro st2 issued hok
      rcases api with _ | s
      · have hok2 : (Except.ok ((⟨none, none, port, none⟩ : MSessionState), true) :
            Except Nat (MSessionState × Bool)) = .ok (st2, issued) := hok
        simp only [Except.ok.injEq, Prod.mk.injEq] at hok2
        obtain ⟨h1, h2⟩ := hok2
        subst h1
        exact ⟨rfl, rfl, rfl⟩
      · by_cases hs : s = 404
        · subst hs
          have hok2 : (Except.ok ((⟨none, none, port, none⟩ : MSessionState), true) :
              Except Nat (MSessionState × Bool)) = .ok (st2, issued) := hok
          simp only [Except.ok.injEq, Prod.mk.injEq] at hok2
          obtain ⟨h1, h2⟩ := hok2
          subst h1
          exact ⟨rfl, rfl, rfl⟩
        · have hok2 : delete_sandbox ⟨some n, ip, port, sc⟩ (.apiError s) =
              .error s := by
            unfold delete_sandbox
            dsimp only
            rw [if_neg hs]
          rw [hok2] at hok
          cases hok
    · intro st2 issued api2 hok
      rcases api with _ | s
      · have hok2 : (Except.ok ((⟨none, none, port, none⟩ : MSessionState), true) :
            Except Nat (MSessionState × Bool)) = .ok (st2, issued) := hok
        simp only [Except.ok.injEq, Prod.mk.injEq] at hok2
        obtain ⟨h1, h2⟩ := hok2
        subst h1
        rfl
      · by_cases hs : s = 404
        · subst hs
          have hok2 : (Except.ok ((⟨none, none, port, none⟩ : MSessionState), true) :
              Except Nat (MSessionState × Bool)) = .ok (st2, issued) := hok
          simp only [Except.ok.injEq, Prod.mk.injEq] at hok2
          obtain ⟨h1, h2⟩ := hok2
          subst h1
          rfl
        · have hok2 : delete_sandbox ⟨some n, ip, port, sc⟩ (.apiError s) =
              .error s := by
            unfold delete_sandbox
            dsimp only
            rw [if_neg hs]
          rw [hok2] at hok
          cases hok

/-- Witness for C9: a fully populated session state; a 404 from the delete
call is swallowed and the state is cleared. -/
theorem delete_sandbox_idempotent_witness :
    ((⟨some "s1", some "10.0.0.1", 9090, some "10.0.0.1:9090"⟩ :
        MSessionState).sandboxName = none →
      (⟨some "s1", some "10.0.0.1", 9090, some "10.0.0.1:9090"⟩ :
        MSessionState).podIp = none) ∧
    delete_sandbox ⟨some "s1", some "10.0.0.1", 9090, some "10.0.0.1:9090"⟩
        (.apiError 404) =
      .ok (⟨none, none, 9090, none⟩, true) :=
  ⟨by decide,
   (delete_sandbox_idempotent
     ⟨some "s1", some "10.0.0.1", 9090, some "10.0.0.1:9090"⟩
     (.apiError 404) (by decide)).2.1 "s1" rfl⟩

/-- C10: the `sidecar_client` property raises `RuntimeError` when
`_pod_ip` is unset, constructing nothing and leaving the state unchanged;
when `_pod_ip` is set, the first access returns a client and every repeated
access returns that same client without constructing a new one. -/
theorem sidecar_client_spec (st : MSessionState) :
    (st.podIp = none →
      sidecar_client st =
        (.error "Sandbox not ready - pod IP not available", st, false)) ∧
    (∀ ip, st.podIp = some ip →
      ∃ c st1 constructed,
        sidecar_client st = (.ok c, st1, constructed) ∧
        sidecar_client st1 = (.ok c, st1, false)) := by
  obtain ⟨sn, ip0, port, sc⟩ := st
  rcases ip0 with _ | ip
  · exact ⟨fun _ => rfl, fun ip2 h => Option.noConfusion h⟩
  · refine ⟨fun h => Option.noConfusion h, ?_⟩
    intro ip2 hip2
    cases hip2
    rcases sc with _ | c0
    · exact ⟨ip ++ ":" ++ toString port,
        ⟨sn, some ip, port, some (ip ++ ":" ++ toString port)⟩, true, rfl, rfl⟩
    · exact ⟨c0, ⟨sn, some ip, port, some c0⟩, false, rfl, rfl⟩

/-- Witness for C10 at a ready session state with pod IP `10.0.0.1`. -/
theorem sidecar_client_spec_witness :
    (⟨some "s1", some "10.0.0.1", 9090, none⟩ : MSessionState).podIp =
      some "10.0.0.1" ∧
    ∃ c st1 constructed,
      sidecar_client ⟨some "s1", some "10.0.0.1", 9090, none⟩ =
        (.ok c, st1, constructed) ∧
      sidecar_client st1 = (.ok c, st1, false) :=
  ⟨rfl,
   (sidecar_client_spec ⟨some "s1", some "10.0.0.1", 9090, none⟩).2
     "10.0.0.1" rfl⟩

end ARL
